import Mathlib

set_option maxRecDepth 4000

/-!
Shallow embedding of `core.py` of real-dedupe-renamer: the scanning, grouping
and deletion engine.  Machine floats (mtime, the running size in `human_size`)
are modelled as rationals; filesystem calls that may raise `OSError` are
modelled as `Option`-valued inputs; the SHA-256 digester is an abstract
function from paths to optional digest strings.
-/

namespace DedupeCore

/-- Model of a filesystem path as the engine sees it: an opaque identity plus
the base name (`path.name` in the source). -/
structure FsPath where
  id : Nat
  name : String
  deriving DecidableEq

/-- Model of `FileEntry = tuple[Path, int, float]` from `core.py` line 15:
path, byte size, mtime timestamp (the float is modelled as a rational). -/
abbrev FileEntry := FsPath × Nat × ℚ

/-- Value slot of one `(name, value)` pair of a group key: `core.py` builds
keys as tuples of `(str, object)` pairs holding hex strings, ints and float
timestamps. -/
inductive CompValue where
  | str : String → CompValue
  | int : Nat → CompValue
  | time : ℚ → CompValue
  deriving DecidableEq

/-- Model of the key tuples built in `find_duplicate_groups`. -/
abbrev GroupKey := List (String × CompValue)

/-- Model of the `groups` dict: insertion-ordered with distinct keys. -/
abbrev Groups := List (GroupKey × List FileEntry)

/-- Lookup in an insertion-ordered dict modelled as an association list. -/
def lookupVals {K V : Type} [DecidableEq K] (k : K) : List (K × V) → Option V
  | [] => none
  | p :: rest => if p.1 = k then some p.2 else lookupVals k rest

/-- Model of `d.setdefault(k, []).append(v)` on an insertion-ordered dict:
append `v` to the list bound to `k`, binding `k` at the end if absent. -/
def setdefaultAppend {K V : Type} [DecidableEq K] (k : K) (v : V) :
    List (K × List V) → List (K × List V)
  | [] => [(k, [v])]
  | p :: rest =>
    if p.1 = k then (p.1, p.2 ++ [v]) :: rest else p :: setdefaultAppend k v rest

/-- Keys of an association list, in order. -/
def keysOf {K V : Type} (g : List (K × V)) : List K := g.map Prod.fst

/-- Member list bound to a key, defaulting to the empty list for absent keys. -/
def lookupD {K V : Type} [DecidableEq K] (k : K) (g : List (K × List V)) : List V :=
  (lookupVals k g).getD []

/-- Invariant of the dicts built by `setdefaultAppend`: no key is bound to an
empty member list. -/
def NoEmptyVals {K V : Type} (g : List (K × List V)) : Prop := ∀ p ∈ g, p.2 ≠ []

/-- The `units` list of `human_size` (`core.py` line 47). -/
def humanSizeUnits : List String := ["B", "KB", "MB", "GB", "TB"]

/-- Unit loop of `human_size`: return as soon as the running size drops under
1024 or the last unit (`units[-1]`) is reached, else divide by 1024. -/
def humanSizeLoop (size : ℚ) : List String → Option (ℚ × String)
  | [] => none
  | u :: rest =>
    if size < 1024 ∨ u = humanSizeUnits.getLastD "" then some (size, u)
    else humanSizeLoop (size / 1024) rest

/-- Model of the Python formatting `f"\x7bsize:.2f\x7d"`: integer part and two
rounded decimal digits. -/
def formatTwoDecimals (q : ℚ) : String :=
  let cents : Int := round (q * 100)
  toString (cents / 100) ++ "." ++ (if cents % 100 < 10 then "0" else "")
    ++ toString (cents % 100)

/-- Model of `human_size` (`core.py` lines 45-53), including the fallback
return statement after the loop. -/
def human_size (numBytes : Nat) : String :=
  match humanSizeLoop (numBytes : ℚ) humanSizeUnits with
  | some (s, u) => formatTwoDecimals s ++ " " ++ u
  | none => toString numBytes ++ " B"

/-- Model of one entry yielded by the directory walk (`folder.rglob` /
`folder.glob`).  The `isFile` and `stat` fields are `none` when the
corresponding filesystem call raises `OSError`. -/
structure WalkItem where
  path : FsPath
  isFile : Option Bool
  stat : Option (Nat × ℚ)

/-- Model of `name_prefix.casefold() if name_prefix else None` (`core.py`
line 72): the empty string is falsy in Python. -/
def normalizePre : Option String → Option String
  | none => none
  | some s => if s = "" then none else some s.toLower

/-- Model of the cutoff computation (`core.py` line 71): `None` when
`days_back <= 0`, otherwise `now - days_back * 24 * 3600`. -/
def cutoffOf (now : ℚ) (daysBack : Int) : Option ℚ :=
  if daysBack ≤ 0 then none else some (now - (daysBack : ℚ) * 24 * 3600)

/-- Model of the name filter `prefix and not path.name.casefold().startswith(prefix)`
(`core.py` line 80): true when the item must be dropped. -/
def preMismatch (pre : Option String) (it : WalkItem) : Bool :=
  match pre with
  | some p => !(p.isPrefixOf it.path.name.toLower)
  | none => false

/-- Per-item loop body of `gather_recent_files` (`core.py` lines 76-88):
an `OSError` from `is_file`/`stat` counts one skip; non-files and
name-mismatches are silently dropped; a surviving entry is kept exactly when
there is no cutoff or `stat.st_mtime >= cutoff`. -/
def gatherLoop (pre : Option String) (cutoff : Option ℚ) :
    List WalkItem → List FileEntry × Nat
  | [] => ([], 0)
  | it :: rest =>
    let r := gatherLoop pre cutoff rest
    match it.isFile with
    | none => (r.1, r.2 + 1)
    | some false => r
    | some true =>
      if preMismatch pre it then r
      else
        match it.stat with
        | none => (r.1, r.2 + 1)
        | some (sz, mt) =>
          match cutoff with
          | none => ((it.path, sz, mt) :: r.1, r.2)
          | some cf => if cf ≤ mt then ((it.path, sz, mt) :: r.1, r.2) else r

/-- Model of `gather_recent_files` (`core.py` lines 63-88), over a walk given
as an explicit list of items; `now` is captured once and passed in. -/
def gather_recent_files (now : ℚ) (daysBack : Int) (namePre : Option String)
    (items : List WalkItem) : List FileEntry × Nat :=
  gatherLoop (normalizePre namePre) (cutoffOf now daysBack) items

/-- Modelled from the spec, section 4.1: a file qualifies under the recency
filter iff `days_back <= 0` or `now - modified_time <= days_back * 86400`
seconds (boundary included), with the other per-item handling as in the
source. -/
def gatherSpecEmit (now : ℚ) (daysBack : Int) (pre : Option String)
    (it : WalkItem) : Option FileEntry :=
  match it.isFile with
  | some true =>
    if preMismatch pre it then none
    else
      match it.stat with
      | none => none
      | some (sz, mt) =>
        if daysBack ≤ 0 ∨ now - mt ≤ (daysBack : ℚ) * 86400 then
          some (it.path, sz, mt)
        else none
  | _ => none

/-- Model of `_normalize_name` (`core.py` lines 100-102): casefold on Windows
(`os.name == "nt"`), identity elsewhere. -/
def _normalize_name (isWindows : Bool) (name : String) : String :=
  if isWindows then name.toLower else name

/-- Model of `hash_max_bytes is not None and size > hash_max_bytes`
(`core.py` line 158). -/
def capExceeded (cap : Option Nat) (size : Nat) : Bool :=
  match cap with
  | some c => decide (c < size)
  | none => false

/-- Hashing step of the per-record loop (`core.py` lines 157-165): when
hashing is active for the bucket, either skip it over the cap (counting one
skip), or digest the file — an `OSError` there drops the record (`continue`).
Returns the hash components to start the key with (`none` = record dropped)
and the skip increment. -/
def hashStep (sha : FsPath → Option String) (cap : Option Nat) (doHashHere : Bool)
    (e : FileEntry) : Option GroupKey × Nat :=
  if doHashHere then
    if capExceeded cap e.2.1 then (some [], 1)
    else
      match sha e.1 with
      | none => (none, 0)
      | some d => (some [("hash", CompValue.str d)], 0)
  else (some [], 0)

/-- Per-record key construction of `find_duplicate_groups` (`core.py` lines
154-176): returns the built key (or `none` when the record is dropped — a
digest `OSError` or an empty component list) together with the increment of
the skipped-hash counter. -/
def recordKey (sha : FsPath → Option String) (isWindows useSize useName useMtime : Bool)
    (cap : Option Nat) (doHashHere : Bool) (e : FileEntry) : Option GroupKey × Nat :=
  match hashStep sha cap doHashHere e with
  | (none, n) => (none, n)
  | (some hs, n) =>
    let comps := hs
      ++ (if useSize then [("size", CompValue.int e.2.1)] else [])
      ++ (if useName then [("name", CompValue.str (_normalize_name isWindows e.1.name))] else [])
      ++ (if useMtime then [("mtime", CompValue.time e.2.2)] else [])
    if comps = [] then (none, n) else (some comps, n)

/-- One iteration of the inner loop of `find_duplicate_groups`: thread the
`groups` dict and the skipped-hash counter through one record. -/
def processEntry (sha : FsPath → Option String) (isWindows useSize useName useMtime : Bool)
    (cap : Option Nat) (doHashHere : Bool) (st : Groups × Nat) (e : FileEntry) : Groups × Nat :=
  match recordKey sha isWindows useSize useName useMtime cap doHashHere e with
  | (none, n) => (st.1, st.2 + n)
  | (some k, n) => (setdefaultAppend k e st.1, st.2 + n)

/-- Inner loop of `find_duplicate_groups` over the files of one size bucket,
with that bucket's `do_hash_here` flag. -/
def runFiles (sha : FsPath → Option String) (isWindows useSize useName useMtime : Bool)
    (cap : Option Nat) (doHashHere : Bool) (st : Groups × Nat)
    (files : List FileEntry) : Groups × Nat :=
  files.foldl (processEntry sha isWindows useSize useName useMtime cap doHashHere) st

/-- Outer loop of `find_duplicate_groups` over the size buckets, computing
`do_hash_here = use_hash and len(files) > 1` per bucket (`core.py` line 152). -/
def runBuckets (sha : FsPath → Option String) (isWindows useSize useName useMtime : Bool)
    (cap : Option Nat) (useHash : Bool) (buckets : List (List FileEntry))
    (st : Groups × Nat) : Groups × Nat :=
  buckets.foldl
    (fun st files =>
      runFiles sha isWindows useSize useName useMtime cap
        (useHash && decide (1 < files.length)) st files) st

/-- Size-bucketing pass of `find_duplicate_groups` (`core.py` lines 143-146):
bucket all records by exact byte size via `setdefault`. -/
def sizeBuckets (entries : List FileEntry) : List (Nat × List FileEntry) :=
  entries.foldl (fun acc e => setdefaultAppend e.2.1 e acc) []

/-- Model of `find_duplicate_groups` (`core.py` lines 121-179): group by the
enabled criteria, bucketing by size first when hashing is enabled, and keep
only groups with more than one member. -/
def find_duplicate_groups (sha : FsPath → Option String) (isWindows : Bool)
    (entries : List FileEntry) (useHash useSize useName useMtime : Bool)
    (cap : Option Nat) : Groups × Nat :=
  if useHash || useSize || useName || useMtime then
    let buckets := if useHash then (sizeBuckets entries).map Prod.snd else [entries]
    let st := runBuckets sha isWindows useSize useName useMtime cap useHash buckets ([], 0)
    (st.1.filter (fun kv => decide (1 < kv.2.length)), st.2)
  else ([], 0)

/-- Modelled from the spec (reference grouper of claim C1): identical to
`find_duplicate_groups` except that the hash component is computed for every
record regardless of how many records share its size (no size bucketing). -/
def find_duplicate_groups_ref (sha : FsPath → Option String) (isWindows : Bool)
    (entries : List FileEntry) (useHash useSize useName useMtime : Bool)
    (cap : Option Nat) : Groups × Nat :=
  if useHash || useSize || useName || useMtime then
    let st := runFiles sha isWindows useSize useName useMtime cap useHash ([], 0) entries
    (st.1.filter (fun kv => decide (1 < kv.2.length)), st.2)
  else ([], 0)

/-- Modelled from the spec, section 7: a configuration error (no criteria
selected) is surfaced to the caller as a rejected call.  The engine source has
no such rejection; this definition exists to compare the spec's words with the
code. -/
def find_duplicate_groups_checked (sha : FsPath → Option String) (isWindows : Bool)
    (entries : List FileEntry) (useHash useSize useName useMtime : Bool)
    (cap : Option Nat) : Except String (Groups × Nat) :=
  if useHash || useSize || useName || useMtime then
    Except.ok (find_duplicate_groups sha isWindows entries useHash useSize useName useMtime cap)
  else Except.error "No criteria selected"

/-- Value of the first `"size"` component of a key, if any. -/
def keySizeVal (k : GroupKey) : Option CompValue := lookupVals "size" k

/-- Model of `path.unlink(missing_ok=True)`: remove the path if present,
silently succeed otherwise. -/
def removePath (p : FsPath) (fs : List FsPath) : List FsPath :=
  fs.filter (fun q => decide (q ≠ p))

/-- Model of `delete_files` (`core.py` lines 182-197).  The optional
`send2trash` import is modelled as `trash`: `none` when unavailable (the code
then falls back to `unlink(missing_ok=True)`); otherwise a function from the
path and the current filesystem to the surviving filesystem or an error
message.  `hasCallback` models whether `on_error` was passed; messages handed
to the callback are collected in the returned list. -/
def delete_files (trash : Option (FsPath → List FsPath → Except String (List FsPath)))
    (hasCallback : Bool) (paths : List FsPath) (fs : List FsPath) :
    List FsPath × List (String × String) :=
  match paths with
  | [] => (fs, [])
  | p :: rest =>
    let step : List FsPath × List (String × String) :=
      match trash with
      | some t =>
        match t p fs with
        | Except.ok fs' => (fs', [])
        | Except.error msg =>
          (fs, if hasCallback then
            [("Delete failed", "Could not delete " ++ p.name ++ ":\n" ++ msg)] else [])
      | none => (removePath p fs, [])
    let r := delete_files trash hasCallback rest step.1
    (r.1, step.2 ++ r.2)

/-! Theorems about the engine, one per claim, with the helper lemmas they
need. -/

/-- C4: for every input collection and every hash cap, if none of the four
criteria flags is enabled then `find_duplicate_groups` returns an empty group
mapping and a skipped-hash count of zero, without treating this as an error. -/
theorem c4_no_criteria_empty_outcome (sha : FsPath → Option String) (isWindows : Bool)
    (entries : List FileEntry) (cap : Option Nat) :
    find_duplicate_groups sha isWindows entries false false false false cap = ([], 0) :=
  rfl

/-- C5 (amended): a call with no criteria selected is not rejected by the
grouper; it is answered with the ordinary empty outcome (empty mapping, zero
skipped count).  The rejection described by the spec lives in the UI layer,
not in the engine. -/
theorem c5_no_criteria_returns_empty_not_error (sha : FsPath → Option String)
    (isWindows : Bool) (entries : List FileEntry) (cap : Option Nat) :
    find_duplicate_groups sha isWindows entries false false false false cap = ([], 0) :=
  rfl

/-- C5 counterexample: on a concrete non-empty input with all four criteria
flags disabled, the grouper returns the plain empty outcome `([], 0)` — the
very value the spec-modelled rejecting wrapper refuses to produce, which
instead rejects the call.  The claim that the engine surfaces an error is
therefore false on the code. -/
theorem c5_counterexample :
    find_duplicate_groups (fun _ => some "d") false [(⟨0, "a"⟩, 1, (0 : ℚ))]
      false false false false none = ([], 0)
    ∧ find_duplicate_groups_checked (fun _ => some "d") false [(⟨0, "a"⟩, 1, (0 : ℚ))]
      false false false false none = Except.error "No criteria selected" :=
  ⟨rfl, rfl⟩

/-- C9: the grouper is deterministic and idempotent — two invocations on the
same input with the same flags and cap agree on the members of every key and
on the skipped-hash count. -/
theorem c9_grouper_deterministic (sha : FsPath → Option String) (isWindows : Bool)
    (entries : List FileEntry) (useHash useSize useName useMtime : Bool)
    (cap : Option Nat) :
    (∀ k : GroupKey,
      lookupVals k (find_duplicate_groups sha isWindows entries useHash useSize useName useMtime cap).1
        = lookupVals k (find_duplicate_groups sha isWindows entries useHash useSize useName useMtime cap).1)
    ∧ (find_duplicate_groups sha isWindows entries useHash useSize useName useMtime cap).2
        = (find_duplicate_groups sha isWindows entries useHash useSize useName useMtime cap).2 :=
  ⟨fun _ => rfl, rfl⟩

/-- C2: every group emitted by `find_duplicate_groups` has at least two
members; no singleton group ever appears. -/
theorem c2_no_singleton_groups (sha : FsPath → Option String) (isWindows : Bool)
    (entries : List FileEntry) (useHash useSize useName useMtime : Bool)
    (cap : Option Nat) (kv : GroupKey × List FileEntry)
    (h : kv ∈ (find_duplicate_groups sha isWindows entries useHash useSize useName useMtime cap).1) :
    2 ≤ kv.2.length := by
  by_cases hg : (useHash || useSize || useName || useMtime) = true
  · simp only [find_duplicate_groups, if_pos hg] at h
    have h2 := List.of_mem_filter h
    simp only [decide_eq_true_eq] at h2
    omega
  · simp only [find_duplicate_groups, if_neg hg] at h
    simp at h

/-- Witness for C2 at a concrete input: size-only grouping of two same-size
files yields a group whose member list has length at least two. -/
theorem c2_witness :
    2 ≤ (([("size", CompValue.int 1)],
      [((⟨0, "a"⟩ : FsPath), 1, (0 : ℚ)), ((⟨1, "b"⟩ : FsPath), 1, (0 : ℚ))]) :
        GroupKey × List FileEntry).2.length :=
  c2_no_singleton_groups (fun _ => some "d") false
    [(⟨0, "a"⟩, 1, 0), (⟨1, "b"⟩, 1, 0)] false true false false none _ (by decide)

/-- C3: for exactly two records of equal size strictly above the hash cap,
hash-only grouping yields zero groups and skipped count 2, and hash+size
grouping groups the two by size while still reporting skipped count 2. -/
theorem c3_hash_cap_boundary (sha : FsPath → Option String) (isWindows : Bool)
    (p1 p2 : FsPath) (s c : Nat) (m1 m2 : ℚ) (h : c < s) :
    find_duplicate_groups sha isWindows [(p1, s, m1), (p2, s, m2)]
      true false false false (some c) = ([], 2)
    ∧ find_duplicate_groups sha isWindows [(p1, s, m1), (p2, s, m2)]
      true true false false (some c)
      = ([([("size", CompValue.int s)], [(p1, s, m1), (p2, s, m2)])], 2) := by
  constructor <;>
    simp [find_duplicate_groups, sizeBuckets, setdefaultAppend, runBuckets, runFiles,
      processEntry, recordKey, hashStep, capExceeded, h]

/-- Witness for C3 at a concrete input: two 1000-byte files under a 500-byte
cap. -/
theorem c3_witness :
    find_duplicate_groups (fun _ => some "d") false
      [((⟨0, "a"⟩ : FsPath), 1000, (0 : ℚ)), ((⟨1, "b"⟩ : FsPath), 1000, (0 : ℚ))]
      true false false false (some 500) = ([], 2)
    ∧ find_duplicate_groups (fun _ => some "d") false
      [((⟨0, "a"⟩ : FsPath), 1000, (0 : ℚ)), ((⟨1, "b"⟩ : FsPath), 1000, (0 : ℚ))]
      true true false false (some 500)
      = ([([("size", CompValue.int 1000)],
          [((⟨0, "a"⟩ : FsPath), 1000, (0 : ℚ)), ((⟨1, "b"⟩ : FsPath), 1000, (0 : ℚ))])], 2) :=
  c3_hash_cap_boundary (fun _ => some "d") false ⟨0, "a"⟩ ⟨1, "b"⟩ 1000 500 0 0
    (by decide)

/-- C6 counterexample: the mtime component carries the raw fractional
timestamp, not an integer-precision one — two records whose mtimes differ
only in the sub-second part (0 and 1/2) receive different mtime components,
and mtime-only grouping does not group them. -/
theorem c6_counterexample :
    (recordKey (fun _ => none) false false false true none false
      ((⟨0, "a"⟩ : FsPath), 1, (0 : ℚ))).1 = some [("mtime", CompValue.time 0)]
    ∧ (recordKey (fun _ => none) false false false true none false
      ((⟨0, "a"⟩ : FsPath), 1, (1 / 2 : ℚ))).1 = some [("mtime", CompValue.time (1 / 2))]
    ∧ CompValue.time 0 ≠ CompValue.time (1 / 2)
    ∧ find_duplicate_groups (fun _ => none) false
        [((⟨0, "a"⟩ : FsPath), 1, (0 : ℚ)), ((⟨1, "a"⟩ : FsPath), 1, (1 / 2 : ℚ))]
        false false false true none = ([], 0) := by
  have hne : (0 : ℚ) = 1 / 2 ↔ False := by norm_num
  refine ⟨rfl, rfl, by simp [hne], ?_⟩
  simp [find_duplicate_groups, runBuckets, runFiles, processEntry, recordKey,
    hashStep, setdefaultAppend, hne]

/-- C6 (amended): with the mtime criterion enabled, the mtime component
appended to a surviving record's key is the record's raw full-precision
timestamp; integer truncation happens only in the human-readable key
description, so records differing in the sub-second part receive different
mtime components. -/
theorem c6_mtime_component_full_precision (sha : FsPath → Option String)
    (isWindows useSize useName : Bool) (cap : Option Nat) (doHashHere : Bool)
    (e : FileEntry) (k : GroupKey)
    (h : (recordKey sha isWindows useSize useName true cap doHashHere e).1 = some k) :
    ("mtime", CompValue.time e.2.2) ∈ k := by
  rcases hhs : hashStep sha cap doHashHere e with ⟨o, n⟩
  rcases o with _ | hs
  · simp [recordKey, hhs] at h
  · simp only [recordKey, hhs] at h
    cases hS : useSize <;> cases hN : useName <;>
      simp_all [List.append_eq_nil] <;>
      exact h ▸ List.mem_append_right _ (by simp)

/-- Witness for C6 (amended) at a concrete input with a fractional mtime. -/
theorem c6_witness :
    ("mtime", CompValue.time (1 / 2)) ∈ ([("mtime", CompValue.time (1 / 2))] : GroupKey) :=
  c6_mtime_component_full_precision (fun _ => none) false false false none false
    ((⟨0, "a"⟩ : FsPath), 1, (1 / 2 : ℚ)) _ rfl

/-- C8 (amended): when the trash mechanism is unavailable (the
`unlink(missing_ok=True)` fallback), deleting any list of paths never invokes
the error callback — already-missing paths included — and every path in the
list is processed: the surviving filesystem is the input minus all listed
paths.  With a trash backend present, its failure on a missing path is
reported through the callback like any other failure. -/
theorem c8_fallback_missing_ok (hasCallback : Bool) (paths fs : List FsPath) :
    delete_files none hasCallback paths fs
      = (paths.foldl (fun f p => removePath p f) fs, []) := by
  induction paths generalizing fs with
  | nil => rfl
  | cons p rest ih => simp [delete_files, ih]

/-- C8 counterexample: with a trash backend that fails on a missing path (the
behavior of the real `send2trash` library), deleting a list containing an
already-missing path does invoke the error callback, contradicting the claim
that a missing file never reaches the callback. -/
theorem c8_counterexample :
    (delete_files
      (some (fun p fs =>
        if p ∈ fs then Except.ok (removePath p fs) else Except.error "No such file"))
      true [⟨0, "a"⟩] []).2 ≠ [] := by
  decide

/-- C10: `human_size` is total and always returns from inside the unit loop,
with a unit drawn from B/KB/MB/GB/TB and the two-decimal formatting; the
fallback return statement after the loop is unreachable. -/
theorem c10_human_size_total (n : Nat) :
    ∃ s u, humanSizeLoop (n : ℚ) humanSizeUnits = some (s, u) ∧ u ∈ humanSizeUnits
      ∧ human_size n = formatTwoDecimals s ++ " " ++ u := by
  have key : ∀ q : ℚ, ∃ s u, humanSizeLoop q humanSizeUnits = some (s, u)
      ∧ u ∈ humanSizeUnits := by
    intro q
    by_cases h1 : q < 1024
    · exact ⟨q, "B", by simp [humanSizeLoop, humanSizeUnits, h1], by simp [humanSizeUnits]⟩
    · by_cases h2 : q / 1024 < 1024
      · exact ⟨q / 1024, "KB", by simp [humanSizeLoop, humanSizeUnits, h1, h2],
          by simp [humanSizeUnits]⟩
      · by_cases h3 : q / 1024 / 1024 < 1024
        · exact ⟨q / 1024 / 1024, "MB",
            by simp [humanSizeLoop, humanSizeUnits, h1, h2, h3], by simp [humanSizeUnits]⟩
        · by_cases h4 : q / 1024 / 1024 / 1024 < 1024
          · exact ⟨q / 1024 / 1024 / 1024, "GB",
              by simp [humanSizeLoop, humanSizeUnits, h1, h2, h3, h4],
              by simp [humanSizeUnits]⟩
          · exact ⟨q / 1024 / 1024 / 1024 / 1024, "TB",
              by simp [humanSizeLoop, humanSizeUnits, h1, h2, h3, h4],
              by simp [humanSizeUnits]⟩
  obtain ⟨s, u, hloop, hmem⟩ := key (n : ℚ)
  exact ⟨s, u, hloop, hmem, by simp [human_size, hloop]⟩

/-- C1 counterexample: with hash and name enabled but size disabled, two
same-named files of different sizes are each alone in their size bucket, so
the bucketed grouper skips hashing and groups them by name alone, while the
reference grouper (hashing every record) keeps them apart — the key-to-members
mappings differ at the name-only key. -/
theorem c1_counterexample :
    lookupVals [("name", CompValue.str "a")]
      (find_duplicate_groups (fun p => some (if p.id = 0 then "d0" else "d1")) false
        [(⟨0, "a"⟩, 1, (0 : ℚ)), (⟨1, "a"⟩, 2, (0 : ℚ))] true false true false none).1
    ≠ lookupVals [("name", CompValue.str "a")]
      (find_duplicate_groups_ref (fun p => some (if p.id = 0 then "d0" else "d1")) false
        [(⟨0, "a"⟩, 1, (0 : ℚ)), (⟨1, "a"⟩, 2, (0 : ℚ))] true false true false none).1 := by
  decide

/-- C7: a file qualifies under the recency filter of `gather_recent_files`
exactly when `days_back <= 0` or `now - modified_time <= days_back * 86400`
seconds (boundary included), with `now` captured once for the whole scan: the
emitted entries are the per-item spec emissions, in walk order. -/
theorem c7_recency_filter_spec (now : ℚ) (daysBack : Int) (namePre : Option String)
    (items : List WalkItem) :
    (gather_recent_files now daysBack namePre items).1
      = items.filterMap (gatherSpecEmit now daysBack (normalizePre namePre)) := by
  unfold gather_recent_files
  generalize normalizePre namePre = pre
  induction items with
  | nil => rfl
  | cons it rest ih =>
    simp only [gatherLoop, List.filterMap_cons]
    rcases hf : it.isFile with _ | b
    · simp [gatherSpecEmit, hf, ih]
    · cases b
      · simp [gatherSpecEmit, hf, ih]
      · by_cases hpre : preMismatch pre it = true
        · simp [gatherSpecEmit, hf, hpre, ih]
        · rcases hs : it.stat with _ | ⟨sz, mt⟩
          · simp [gatherSpecEmit, hf, hpre, hs, ih]
          · by_cases hdb : daysBack ≤ 0
            · simp only [cutoffOf, if_pos hdb] at ih ⊢
              simp [gatherSpecEmit, hf, hpre, hs, hdb, ih]
            · simp only [cutoffOf, if_neg hdb] at ih ⊢
              have hmul : (daysBack : ℚ) * 24 * 3600 = (daysBack : ℚ) * 86400 := by
                ring
              have hcond : (now - (daysBack : ℚ) * 24 * 3600 ≤ mt)
                  ↔ (now - mt ≤ (daysBack : ℚ) * 86400) := by
                rw [hmul]
                constructor <;> intro h <;> linarith
              by_cases hm : now - (daysBack : ℚ) * 24 * 3600 ≤ mt
              · simp [gatherSpecEmit, hf, hpre, hs, hdb, hm, hcond.mp hm, ih]
              · have hm2 : ¬(now - mt ≤ (daysBack : ℚ) * 86400) := fun hx => hm (hcond.mpr hx)
                simp [gatherSpecEmit, hf, hpre, hs, hdb, hm, hm2, ih]

/-! Association-list lemmas shared by the grouping proofs. -/

section AssocLemmas

variable {K V : Type} [DecidableEq K]

theorem lookupD_setdefaultAppend (k q : K) (v : V) (g : List (K × List V)) :
    lookupD k (setdefaultAppend q v g) = lookupD k g ++ (if q = k then [v] else []) := by
  induction g with
  | nil =>
    by_cases h : q = k <;> simp [setdefaultAppend, lookupD, lookupVals, h]
  | cons p rest ih =>
    obtain ⟨a, vs⟩ := p
    by_cases hq : a = q
    · subst hq
      by_cases hk : a = k <;> simp [setdefaultAppend, lookupD, lookupVals, hk]
    · by_cases hk : a = k
      · have hqk : ¬q = k := fun h => hq (by rw [hk, h])
        have hkq : ¬k = q := fun h => hqk h.symm
        simp [setdefaultAppend, lookupD, lookupVals, hq, hk, hqk, hkq]
      · simpa [setdefaultAppend, lookupD, lookupVals, hq, hk] using ih

theorem keysOf_setdefaultAppend_of_mem {k : K} (v : V) {g : List (K × List V)}
    (h : k ∈ keysOf g) : keysOf (setdefaultAppend k v g) = keysOf g := by
  induction g with
  | nil => simp [keysOf] at h
  | cons p rest ih =>
    obtain ⟨a, vs⟩ := p
    by_cases ha : a = k
    · simp [setdefaultAppend, ha, keysOf]
    · have h2 : k ∈ keysOf rest := by
        rcases List.mem_cons.mp (show k ∈ a :: keysOf rest from h) with h3 | h3
        · exact absurd h3.symm ha
        · exact h3
      simp [setdefaultAppend, ha, keysOf]
      simpa [keysOf] using ih h2

theorem keysOf_setdefaultAppend_of_not_mem {k : K} (v : V) {g : List (K × List V)}
    (h : k ∉ keysOf g) : keysOf (setdefaultAppend k v g) = keysOf g ++ [k] := by
  induction g with
  | nil => simp [setdefaultAppend, keysOf]
  | cons p rest ih =>
    obtain ⟨a, vs⟩ := p
    have ha : ¬a = k := fun hh =>
      h (show k ∈ a :: keysOf rest by rw [hh]; exact List.mem_cons_self _ _)
    have h2 : k ∉ keysOf rest := fun hh =>
      h (show k ∈ a :: keysOf rest from List.mem_cons_of_mem _ hh)
    simp [setdefaultAppend, ha, keysOf]
    simpa [keysOf] using ih h2

theorem nodup_setdefaultAppend (k : K) (v : V) {g : List (K × List V)}
    (h : (keysOf g).Nodup) : (keysOf (setdefaultAppend k v g)).Nodup := by
  by_cases hm : k ∈ keysOf g
  · rw [keysOf_setdefaultAppend_of_mem v hm]; exact h
  · rw [keysOf_setdefaultAppend_of_not_mem v hm]
    simp [List.nodup_append, h, hm]

theorem noEmpty_setdefaultAppend (k : K) (v : V) {g : List (K × List V)}
    (h : NoEmptyVals g) : NoEmptyVals (setdefaultAppend k v g) := by
  induction g with
  | nil =>
    intro p hp
    simp [setdefaultAppend] at hp
    simp [hp]
  | cons q rest ih =>
    have hq : NoEmptyVals rest := fun p hp => h p (List.mem_cons_of_mem _ hp)
    intro p hp
    by_cases hqa : q.1 = k
    · simp only [setdefaultAppend, if_pos hqa] at hp
      rcases List.mem_cons.mp hp with rfl | hp2
      · simp
      · exact h p (List.mem_cons_of_mem _ hp2)
    · simp only [setdefaultAppend, if_neg hqa] at hp
      rcases List.mem_cons.mp hp with rfl | hp2
      · exact h p (List.mem_cons_self _ _)
      · exact ih hq p hp2

theorem lookupVals_eq_none_iff (k : K) (g : List (K × V)) :
    lookupVals k g = none ↔ k ∉ keysOf g := by
  induction g with
  | nil => simp [lookupVals, keysOf]
  | cons p rest ih =>
    by_cases h : p.1 = k
    · simp [lookupVals, keysOf, h]
    · have h2 : ¬k = p.1 := fun hh => h hh.symm
      simp [lookupVals, keysOf, h, h2, ih]

theorem lookupVals_mem {k : K} {vs : V} {g : List (K × V)}
    (h : lookupVals k g = some vs) : (k, vs) ∈ g := by
  induction g with
  | nil => simp [lookupVals] at h
  | cons p rest ih =>
    by_cases hp : p.1 = k
    · simp only [lookupVals, if_pos hp, Option.some.injEq] at h
      subst h
      subst hp
      exact List.mem_cons_self _ _
    · simp only [lookupVals, if_neg hp] at h
      exact List.mem_cons_of_mem _ (ih h)

theorem mem_lookupVals_of_nodup {k : K} {vs : V} {g : List (K × V)}
    (hnd : (keysOf g).Nodup) (h : (k, vs) ∈ g) : lookupVals k g = some vs := by
  induction g with
  | nil => simp at h
  | cons p rest ih =>
    obtain ⟨a, b⟩ := p
    have hnd2 := List.nodup_cons.mp (show (a :: keysOf rest).Nodup from hnd)
    rcases List.mem_cons.mp h with h2 | h2
    · injection h2 with h3 h4
      subst h3
      subst h4
      simp [lookupVals]
    · have hkr : k ∈ keysOf rest := List.mem_map_of_mem Prod.fst h2
      have hka : ¬a = k := fun hh => hnd2.1 (by rw [hh]; exact hkr)
      simp [lookupVals, hka, ih hnd2.2 h2]

theorem lookupVals_of_noEmpty [DecidableEq V] {g : List (K × List V)} (h : NoEmptyVals g) (k : K) :
    lookupVals k g = if lookupD k g = [] then none else some (lookupD k g) := by
  cases hL : lookupVals k g with
  | none => simp [lookupD, hL]
  | some vs =>
    have hne : vs ≠ [] := h _ (lookupVals_mem hL)
    simp [lookupD, hL, hne]

theorem lookupVals_filter_big (k : K) {g : List (K × List V)}
    (hnd : (keysOf g).Nodup) :
    lookupVals k (g.filter (fun kv => decide (1 < kv.2.length)))
      = (lookupVals k g).bind (fun vs => if 1 < vs.length then some vs else none) := by
  induction g with
  | nil => simp [lookupVals]
  | cons p rest ih =>
    obtain ⟨a, vs⟩ := p
    have hnd2 := List.nodup_cons.mp (show (a :: keysOf rest).Nodup from hnd)
    have hihs := ih hnd2.2
    by_cases hlen : 1 < vs.length <;> by_cases hk : a = k
    · simp [List.filter_cons, hlen, lookupVals, hk]
    · simp [List.filter_cons, hlen, lookupVals, hk, hihs]
    · have hknr : k ∉ keysOf rest := hk ▸ hnd2.1
      rw [(lookupVals_eq_none_iff k rest).mpr hknr] at hihs
      simp [List.filter_cons, hlen, lookupVals, hk, hihs]
    · simp [List.filter_cons, hlen, lookupVals, hk, hihs]

theorem optionBig_of_ite [DecidableEq V] (l : List V) :
    (if l = [] then none else some l).bind
      (fun vs => if 1 < vs.length then some vs else none)
      = if 1 < l.length then some l else none := by
  cases l <;> simp

end AssocLemmas

/-! Characterization of the grouping folds. -/

theorem runFiles_fst_lookupD (sha : FsPath → Option String) (iw us un um : Bool)
    (cap : Option Nat) (dh : Bool) (k : GroupKey) :
    ∀ (files : List FileEntry) (st : Groups × Nat),
      lookupD k (runFiles sha iw us un um cap dh st files).1
        = lookupD k st.1 ++ files.filter (fun e =>
            decide ((recordKey sha iw us un um cap dh e).1 = some k)) := by
  intro files
  induction files with
  | nil => intro st; simp [runFiles]
  | cons e files ih =>
    intro st
    have hstep : runFiles sha iw us un um cap dh st (e :: files)
        = runFiles sha iw us un um cap dh
            (processEntry sha iw us un um cap dh st e) files := rfl
    rw [hstep, ih]
    rcases hrk : recordKey sha iw us un um cap dh e with ⟨o, n⟩
    rcases o with _ | k2
    · have hne : ¬(recordKey sha iw us un um cap dh e).1 = some k := by
        simp [hrk]
      simp [processEntry, hrk, List.filter_cons, hne]
    · by_cases hk2 : k2 = k
      · have heq : (recordKey sha iw us un um cap dh e).1 = some k := by simp [hrk, hk2]
        simp [processEntry, hrk, List.filter_cons, heq, lookupD_setdefaultAppend, hk2]
      · have hne : ¬(recordKey sha iw us un um cap dh e).1 = some k := by
          simp [hrk, hk2]
        simp [processEntry, hrk, List.filter_cons, hne, lookupD_setdefaultAppend, hk2]

theorem runFiles_fst_nodup (sha : FsPath → Option String) (iw us un um : Bool)
    (cap : Option Nat) (dh : Bool) :
    ∀ (files : List FileEntry) (st : Groups × Nat),
      (keysOf st.1).Nodup → (keysOf (runFiles sha iw us un um cap dh st files).1).Nodup := by
  intro files
  induction files with
  | nil => intro st h; exact h
  | cons e files ih =>
    intro st h
    have hstep : runFiles sha iw us un um cap dh st (e :: files)
        = runFiles sha iw us un um cap dh
            (processEntry sha iw us un um cap dh st e) files := rfl
    rw [hstep]
    apply ih
    rcases hrk : recordKey sha iw us un um cap dh e with ⟨o, n⟩
    rcases o with _ | k2
    · simpa [processEntry, hrk] using h
    · simpa [processEntry, hrk] using nodup_setdefaultAppend k2 e h

theorem runFiles_fst_noempty (sha : FsPath → Option String) (iw us un um : Bool)
    (cap : Option Nat) (dh : Bool) :
    ∀ (files : List FileEntry) (st : Groups × Nat),
      NoEmptyVals st.1 → NoEmptyVals (runFiles sha iw us un um cap dh st files).1 := by
  intro files
  induction files with
  | nil => intro st h; exact h
  | cons e files ih =>
    intro st h
    have hstep : runFiles sha iw us un um cap dh st (e :: files)
        = runFiles sha iw us un um cap dh
            (processEntry sha iw us un um cap dh st e) files := rfl
    rw [hstep]
    apply ih
    rcases hrk : recordKey sha iw us un um cap dh e with ⟨o, n⟩
    rcases o with _ | k2
    · simpa [processEntry, hrk] using h
    · simpa [processEntry, hrk] using noEmpty_setdefaultAppend k2 e h

theorem runBuckets_fst_lookupD (sha : FsPath → Option String) (iw us un um : Bool)
    (cap : Option Nat) (uh : Bool) (k : GroupKey) :
    ∀ (buckets : List (List FileEntry)) (st : Groups × Nat),
      lookupD k (runBuckets sha iw us un um cap uh buckets st).1
        = lookupD k st.1
          ++ (buckets.map (fun files => files.filter (fun e =>
              decide ((recordKey sha iw us un um cap
                (uh && decide (1 < files.length)) e).1 = some k)))).flatten := by
  intro buckets
  induction buckets with
  | nil => intro st; simp [runBuckets]
  | cons b bs ih =>
    intro st
    have hstep : runBuckets sha iw us un um cap uh (b :: bs) st
        = runBuckets sha iw us un um cap uh bs
            (runFiles sha iw us un um cap (uh && decide (1 < b.length)) st b) := rfl
    rw [hstep, ih, runFiles_fst_lookupD]
    simp [List.append_assoc]

theorem runBuckets_fst_nodup (sha : FsPath → Option String) (iw us un um : Bool)
    (cap : Option Nat) (uh : Bool) :
    ∀ (buckets : List (List FileEntry)) (st : Groups × Nat),
      (keysOf st.1).Nodup → (keysOf (runBuckets sha iw us un um cap uh buckets st).1).Nodup := by
  intro buckets
  induction buckets with
  | nil => intro st h; exact h
  | cons b bs ih =>
    intro st h
    exact ih _ (runFiles_fst_nodup sha iw us un um cap _ b st h)

theorem runBuckets_fst_noempty (sha : FsPath → Option String) (iw us un um : Bool)
    (cap : Option Nat) (uh : Bool) :
    ∀ (buckets : List (List FileEntry)) (st : Groups × Nat),
      NoEmptyVals st.1 → NoEmptyVals (runBuckets sha iw us un um cap uh buckets st).1 := by
  intro buckets
  induction buckets with
  | nil => intro st h; exact h
  | cons b bs ih =>
    intro st h
    exact ih _ (runFiles_fst_noempty sha iw us un um cap _ b st h)

theorem foldl_setdef_lookupD (s : Nat) :
    ∀ (entries : List FileEntry) (acc : List (Nat × List FileEntry)),
      lookupD s (entries.foldl (fun a e => setdefaultAppend e.2.1 e a) acc)
        = lookupD s acc ++ entries.filter (fun e => decide (e.2.1 = s)) := by
  intro entries
  induction entries with
  | nil => intro acc; simp
  | cons e es ih =>
    intro acc
    rw [List.foldl_cons, ih, lookupD_setdefaultAppend]
    by_cases h : e.2.1 = s <;> simp [h, List.filter_cons, List.append_assoc]

theorem sizeBuckets_lookupD (s : Nat) (entries : List FileEntry) :
    lookupD s (sizeBuckets entries) = entries.filter (fun e => decide (e.2.1 = s)) := by
  rw [sizeBuckets, foldl_setdef_lookupD]
  simp [lookupD, lookupVals]

theorem sizeBuckets_nodup (entries : List FileEntry) :
    (keysOf (sizeBuckets entries)).Nodup := by
  rw [sizeBuckets]
  have key : ∀ (es : List FileEntry) (acc : List (Nat × List FileEntry)),
      (keysOf acc).Nodup →
      (keysOf (es.foldl (fun a e => setdefaultAppend e.2.1 e a) acc)).Nodup := by
    intro es
    induction es with
    | nil => intro acc h; exact h
    | cons e es ih =>
      intro acc h
      rw [List.foldl_cons]
      exact ih _ (nodup_setdefaultAppend _ _ h)
  exact key entries [] (by simp [keysOf])

theorem sizeBuckets_noempty (entries : List FileEntry) :
    NoEmptyVals (sizeBuckets entries) := by
  rw [sizeBuckets]
  have key : ∀ (es : List FileEntry) (acc : List (Nat × List FileEntry)),
      NoEmptyVals acc →
      NoEmptyVals (es.foldl (fun a e => setdefaultAppend e.2.1 e a) acc) := by
    intro es
    induction es with
    | nil => intro acc h; exact h
    | cons e es ih =>
      intro acc h
      rw [List.foldl_cons]
      exact ih _ (noEmpty_setdefaultAppend _ _ h)
  exact key entries [] (by intro p hp; simp at hp)

theorem sizeBuckets_mem_char {t : Nat} {b : List FileEntry} {entries : List FileEntry}
    (h : (t, b) ∈ sizeBuckets entries) :
    b = entries.filter (fun e => decide (e.2.1 = t)) := by
  have h1 := mem_lookupVals_of_nodup (sizeBuckets_nodup entries) h
  have h2 := sizeBuckets_lookupD t entries
  rw [lookupD, h1] at h2
  simpa using h2

theorem hashStep_shape (sha : FsPath → Option String) (cap : Option Nat)
    (dh : Bool) (e : FileEntry) (hs : GroupKey) (n : Nat)
    (h : hashStep sha cap dh e = (some hs, n)) :
    hs = [] ∨ ∃ d, hs = [("hash", CompValue.str d)] := by
  by_cases hdh : dh = true
  · rw [hashStep, if_pos hdh] at h
    by_cases hcap : capExceeded cap e.2.1 = true
    · rw [if_pos hcap, Prod.mk.injEq] at h
      left
      simpa [eq_comm] using h.1
    · rw [if_neg hcap] at h
      rcases hsha : sha e.1 with _ | d
      · simp only [hsha] at h
        simp at h
      · simp only [hsha, Prod.mk.injEq] at h
        right
        exact ⟨d, by simpa [eq_comm] using h.1⟩
  · rw [hashStep, if_neg hdh, Prod.mk.injEq] at h
    left
    simpa [eq_comm] using h.1

theorem recordKey_size_component (sha : FsPath → Option String) (iw un um : Bool)
    (cap : Option Nat) (dh : Bool) (e : FileEntry) (k : GroupKey)
    (h : (recordKey sha iw true un um cap dh e).1 = some k) :
    keySizeVal k = some (CompValue.int e.2.1) := by
  rcases hhs : hashStep sha cap dh e with ⟨o, n⟩
  rcases o with _ | hs
  · simp [recordKey, hhs] at h
  · simp only [recordKey, hhs] at h
    rcases hashStep_shape sha cap dh e hs n hhs with rfl | ⟨d, rfl⟩
    · simp only [List.nil_append] at h
      rw [if_neg (by simp)] at h
      simp only [Option.some.injEq] at h
      rw [← h]
      simp [keySizeVal, lookupVals]
    · rw [if_neg (by simp)] at h
      simp only [Option.some.injEq] at h
      rw [← h]
      simp [keySizeVal, lookupVals]

theorem filter_rk_localize (sha : FsPath → Option String) (iw un um : Bool)
    (cap : Option Nat) (d : Bool) (s : Nat) (k : GroupKey)
    (hksv : keySizeVal k = some (CompValue.int s)) (l : List FileEntry) :
    l.filter (fun e => decide ((recordKey sha iw true un um cap d e).1 = some k))
      = (l.filter (fun e => decide (e.2.1 = s))).filter (fun e =>
          decide ((recordKey sha iw true un um cap d e).1 = some k)) := by
  rw [List.filter_filter]
  apply List.filter_congr
  intro e _
  by_cases hP : (recordKey sha iw true un um cap d e).1 = some k
  · have hsz := recordKey_size_component sha iw un um cap d e k hP
    rw [hksv] at hsz
    have hes : e.2.1 = s := by
      injection hsz with hsz2
      injection hsz2 with hsz3
      exact hsz3.symm
    simp [hP, hes]
  · simp [hP]

theorem buckets_flatten_collapse (sha : FsPath → Option String) (iw un um : Bool)
    (cap : Option Nat) (k : GroupKey) (s : Nat) (E : List FileEntry)
    (hksv : keySizeVal k = some (CompValue.int s)) :
    ∀ (g : List (Nat × List FileEntry)), (keysOf g).Nodup →
      (∀ p ∈ g, p.2 = E.filter (fun e => decide (e.2.1 = p.1))) →
      ((g.map (fun p => p.2.filter (fun e => decide
          ((recordKey sha iw true un um cap (decide (1 < p.2.length)) e).1 = some k)))).flatten
        = (lookupVals s g).elim ([] : List FileEntry) (fun b => b.filter (fun e => decide
            ((recordKey sha iw true un um cap (decide (1 < b.length)) e).1 = some k)))) := by
  intro g
  induction g with
  | nil => intro _ _; simp [lookupVals]
  | cons p g2 ih =>
    intro hnd hchar
    obtain ⟨t, b⟩ := p
    have hnd2 := List.nodup_cons.mp (show (t :: keysOf g2).Nodup from hnd)
    have hchar2 : ∀ p ∈ g2, p.2 = E.filter (fun e => decide (e.2.1 = p.1)) :=
      fun p hp => hchar p (List.mem_cons_of_mem _ hp)
    have hb : b = E.filter (fun e => decide (e.2.1 = t)) := by
      simpa using hchar (t, b) (List.mem_cons_self _ _)
    by_cases ht : t = s
    · have htail : (g2.map (fun p => p.2.filter (fun e => decide
          ((recordKey sha iw true un um cap (decide (1 < p.2.length)) e).1
            = some k)))).flatten = [] := by
        rw [List.flatten_eq_nil_iff]
        intro l hl
        rw [List.mem_map] at hl
        obtain ⟨q, hq, rfl⟩ := hl
        rw [List.filter_eq_nil_iff]
        intro e he hrk
        have hsz := recordKey_size_component sha iw un um cap _ e k
          (of_decide_eq_true hrk)
        rw [hksv] at hsz
        have hes : e.2.1 = s := by
          injection hsz with hsz2
          injection hsz2 with hsz3
          exact hsz3.symm
        have hq2 := hchar2 q hq
        rw [hq2] at he
        have heq : e.2.1 = q.1 := of_decide_eq_true ((List.mem_filter.mp he).2)
        have hqs : q.1 ≠ s := by
          intro hh
          apply hnd2.1
          rw [ht, ← hh]
          exact List.mem_map_of_mem Prod.fst hq
        exact hqs (heq ▸ hes)
      subst ht
      simp [List.map_cons, List.flatten_cons, htail, lookupVals]
    · have hhead : b.filter (fun e => decide
          ((recordKey sha iw true un um cap (decide (1 < b.length)) e).1
            = some k)) = [] := by
        rw [List.filter_eq_nil_iff]
        intro e he hrk
        have hsz := recordKey_size_component sha iw un um cap _ e k
          (of_decide_eq_true hrk)
        rw [hksv] at hsz
        have hes : e.2.1 = s := by
          injection hsz with hsz2
          injection hsz2 with hsz3
          exact hsz3.symm
        rw [hb] at he
        have heq : e.2.1 = t := of_decide_eq_true ((List.mem_filter.mp he).2)
        exact ht (heq ▸ hes)
      simp [List.map_cons, List.flatten_cons, hhead, lookupVals, ht,
        ih hnd2.2 hchar2]

/-- C1 (amended): for every enabled-criteria combination that includes hash
and size, size-bucketing is a pure optimization — `find_duplicate_groups`
returns the same key-to-members mapping as the reference grouper that
computes the hash component for every record regardless of how many records
share its size.  (Without the size criterion the equivalence fails, see the
counterexample.) -/
theorem c1_size_bucketing_pure_with_size_criterion (sha : FsPath → Option String)
    (iw un um : Bool) (cap : Option Nat) (entries : List FileEntry) (k : GroupKey) :
    lookupVals k (find_duplicate_groups sha iw entries true true un um cap).1
      = lookupVals k (find_duplicate_groups_ref sha iw entries true true un um cap).1 := by
  have hfd : (find_duplicate_groups sha iw entries true true un um cap).1
      = (runBuckets sha iw true un um cap true ((sizeBuckets entries).map Prod.snd)
          ([], 0)).1.filter (fun kv => decide (1 < kv.2.length)) := rfl
  have hfr : (find_duplicate_groups_ref sha iw entries true true un um cap).1
      = (runFiles sha iw true un um cap true ([], 0) entries).1.filter
          (fun kv => decide (1 < kv.2.length)) := rfl
  rw [hfd, hfr]
  have hndB : (keysOf (runBuckets sha iw true un um cap true
      ((sizeBuckets entries).map Prod.snd) ([], 0)).1).Nodup :=
    runBuckets_fst_nodup sha iw true un um cap true _ _ (by simp [keysOf])
  have hndR : (keysOf (runFiles sha iw true un um cap true ([], 0) entries).1).Nodup :=
    runFiles_fst_nodup sha iw true un um cap true _ _ (by simp [keysOf])
  have hneB : NoEmptyVals (runBuckets sha iw true un um cap true
      ((sizeBuckets entries).map Prod.snd) ([], 0)).1 :=
    runBuckets_fst_noempty sha iw true un um cap true _ _ (by intro p hp; simp at hp)
  have hneR : NoEmptyVals (runFiles sha iw true un um cap true ([], 0) entries).1 :=
    runFiles_fst_noempty sha iw true un um cap true _ _ (by intro p hp; simp at hp)
  rw [lookupVals_filter_big k hndB, lookupVals_filter_big k hndR,
    lookupVals_of_noEmpty hneB k, lookupVals_of_noEmpty hneR k,
    optionBig_of_ite, optionBig_of_ite]
  have hLB : lookupD k (runBuckets sha iw true un um cap true
      ((sizeBuckets entries).map Prod.snd) ([], 0)).1
      = ((sizeBuckets entries).map (fun p => p.2.filter (fun e => decide
          ((recordKey sha iw true un um cap (decide (1 < p.2.length)) e).1
            = some k)))).flatten := by
    rw [runBuckets_fst_lookupD, List.map_map]
    simp [lookupD, lookupVals, Function.comp_def, Bool.true_and]
  have hLR : lookupD k (runFiles sha iw true un um cap true ([], 0) entries).1
      = entries.filter (fun e => decide
          ((recordKey sha iw true un um cap true e).1 = some k)) := by
    rw [runFiles_fst_lookupD]
    simp [lookupD, lookupVals]
  rw [hLB, hLR]
  by_cases hex : ∃ s, keySizeVal k = some (CompValue.int s)
  · obtain ⟨s, hk⟩ := hex
    have hchar : ∀ p ∈ sizeBuckets entries,
        p.2 = entries.filter (fun e => decide (e.2.1 = p.1)) := by
      intro p hp
      exact sizeBuckets_mem_char (show (p.1, p.2) ∈ sizeBuckets entries from hp)
    have hJ := buckets_flatten_collapse sha iw un um cap k s entries hk
      (sizeBuckets entries) (sizeBuckets_nodup entries) hchar
    have hlk : lookupVals s (sizeBuckets entries)
        = if entries.filter (fun e => decide (e.2.1 = s)) = [] then none
          else some (entries.filter (fun e => decide (e.2.1 = s))) := by
      rw [lookupVals_of_noEmpty (sizeBuckets_noempty entries) s, sizeBuckets_lookupD]
    by_cases hfs : entries.filter (fun e => decide (e.2.1 = s)) = []
    · have hLB2 : ((sizeBuckets entries).map (fun p => p.2.filter (fun e => decide
          ((recordKey sha iw true un um cap (decide (1 < p.2.length)) e).1
            = some k)))).flatten = [] := by
        rw [hJ, hlk]
        simp [hfs]
      have hR2 : entries.filter (fun e => decide
          ((recordKey sha iw true un um cap true e).1 = some k)) = [] := by
        rw [filter_rk_localize sha iw un um cap true s k hk, hfs]
        simp
      rw [hLB2, hR2]
    · have hLB2 : ((sizeBuckets entries).map (fun p => p.2.filter (fun e => decide
          ((recordKey sha iw true un um cap (decide (1 < p.2.length)) e).1
            = some k)))).flatten
          = (entries.filter (fun e => decide (e.2.1 = s))).filter (fun e => decide
              ((recordKey sha iw true un um cap
                (decide (1 < (entries.filter (fun e2 => decide (e2.2.1 = s))).length))
                e).1 = some k)) := by
        rw [hJ, hlk]
        simp [hfs]
      rw [hLB2, filter_rk_localize sha iw un um cap true s k hk entries]
      by_cases hlen : 1 < (entries.filter (fun e => decide (e.2.1 = s))).length
      · simp only [decide_eq_true hlen]
      · have hle : ∀ (P : FileEntry → Bool),
            ¬1 < ((entries.filter (fun e => decide (e.2.1 = s))).filter P).length :=
          fun P hcon => hlen (lt_of_lt_of_le hcon (List.length_filter_le _ _))
        rw [if_neg (hle _), if_neg (hle _)]
  · have hcontra : ∀ (d : Bool) (e : FileEntry),
        ¬(recordKey sha iw true un um cap d e).1 = some k := by
      intro d e hrk
      exact hex ⟨e.2.1, recordKey_size_component sha iw un um cap d e k hrk⟩
    have hR2 : entries.filter (fun e => decide
        ((recordKey sha iw true un um cap true e).1 = some k)) = [] := by
      rw [List.filter_eq_nil_iff]
      intro e _ hrk
      exact hcontra true e (of_decide_eq_true hrk)
    have hB2 : ((sizeBuckets entries).map (fun p => p.2.filter (fun e => decide
        ((recordKey sha iw true un um cap (decide (1 < p.2.length)) e).1
          = some k)))).flatten = [] := by
      rw [List.flatten_eq_nil_iff]
      intro l hl
      rw [List.mem_map] at hl
      obtain ⟨p, hp, rfl⟩ := hl
      rw [List.filter_eq_nil_iff]
      intro e _ hrk
      exact hcontra _ e (of_decide_eq_true hrk)
    rw [hR2, hB2]

end DedupeCore
